import Mathlib

/-!
Verification development for the Transcriber repository.

The repository contains two sibling services:
* a FastAPI + Whisper transcription service (`main.py`, `storage.py`,
  `transcription_service.py`, `models.py`), whose task registry is
  `InMemoryStorage`, and
* a Flask audio-extraction service (`app.py`), whose task registry is the
  `processing_status` dict, together with `file_manager.py` / `utils.py`.

This file gives a shallow embedding of the data model and the operations of
both services, and proves or refutes the frozen claims about them.
Python dicts are embedded as association lists; `datetime` values as integer
timestamps (seconds); exceptions as explicit outcome values.
-/

set_option autoImplicit false

namespace Transcriber

/-! ## Association-list primitives (embedding of Python dict) -/

/-- First-match lookup in an association list, the embedding of `d.get(k)`. -/
def lookupA {κ α : Type} [DecidableEq κ] : List (κ × α) → κ → Option α
  | [], _ => none
  | (k, v) :: rest, key => if k = key then some v else lookupA rest key

/-- Insert-or-replace, the embedding of `d[k] = v`. -/
def insertA {κ α : Type} [DecidableEq κ] : List (κ × α) → κ → α → List (κ × α)
  | [], key, v => [(key, v)]
  | (k, w) :: rest, key, v =>
      if k = key then (key, v) :: rest else (k, w) :: insertA rest key v

/-- Key removal, the embedding of `del d[k]`. -/
def eraseA {κ α : Type} [DecidableEq κ] : List (κ × α) → κ → List (κ × α)
  | [], _ => []
  | (k, v) :: rest, key =>
      if k = key then eraseA rest key else (k, v) :: eraseA rest key

/-! ## Data model of the Whisper service (`models.py`) -/

/-- Embedding of the `TranscriptionStatus` enum of `models.py`. -/
inductive TranscriptionStatus : Type where
  | pending
  | processing
  | completed
  | failed
  deriving DecidableEq, Repr

/-- Embedding of the `TranscriptionResult` pydantic model of `models.py`.
`datetime` fields are integer timestamps; `float` duration is rational. -/
structure TranscriptionResult : Type where
  id : Nat
  status : TranscriptionStatus
  text : Option String := none
  language : Option String := none
  duration : Option ℚ := none
  created_at : Int
  completed_at : Option Int := none
  error_message : Option String := none
  deriving DecidableEq, Repr

/-! ## Task registry (`storage.py`, class `InMemoryStorage`) -/

/-- Embedding of the mutable state of `InMemoryStorage`: the `_storage` dict
and the `_next_id` counter. -/
structure InMemoryStorage : Type where
  storage : List (Nat × TranscriptionResult) := []
  next_id : Nat := 1
  deriving DecidableEq, Repr

/-- Embedding of `InMemoryStorage.create_transcription`: allocate `_next_id`,
increment the counter, insert a PENDING record with `created_at = now`.
The wall clock `datetime.now(timezone.utc)` is passed as the `now` argument. -/
def create_transcription (s : InMemoryStorage) (language : Option String)
    (now : Int) : Nat × InMemoryStorage :=
  let transcription_id := s.next_id
  let result : TranscriptionResult :=
    { id := transcription_id
      status := TranscriptionStatus.pending
      language := language
      created_at := now }
  (transcription_id,
   { storage := insertA s.storage transcription_id result
     next_id := s.next_id + 1 })

/-- Embedding of `InMemoryStorage.get_transcription`: `self._storage.get(id)`. -/
def get_transcription (s : InMemoryStorage) (transcription_id : Nat) :
    Option TranscriptionResult :=
  lookupA s.storage transcription_id

/-- Embedding of the `**kwargs` dict passed to `update_transcription`.
Each field that is an attribute of `TranscriptionResult` is an optional
update; `extra` lists keyword names that are not attributes of the record
(the `hasattr` check of the source makes `setattr` skip those). -/
structure UpdateKwargs : Type where
  idv : Option Nat := none
  status : Option TranscriptionStatus := none
  text : Option String := none
  language : Option String := none
  duration : Option ℚ := none
  created_at : Option Int := none
  completed_at : Option Int := none
  error_message : Option String := none
  extra : List String := []
  deriving DecidableEq, Repr

/-- Assignment of one optional-valued attribute: a keyword that is present
overwrites the attribute, an absent keyword leaves it alone. (The callers in
the sources never pass an explicit `None` as a keyword value, so a present
keyword always stores a proper value.) -/
def setIfGiven {α : Type} (kwv : Option α) (old : Option α) : Option α :=
  match kwv with
  | some v => some v
  | none => old

/-- Embedding of the `setattr` loop of `update_transcription`: every keyword
that is an attribute of the record is assigned; unknown keywords (`extra`)
fail the `hasattr` test and are skipped. -/
def applyKwargs (r : TranscriptionResult) (kw : UpdateKwargs) : TranscriptionResult :=
  { id := kw.idv.getD r.id
    status := kw.status.getD r.status
    text := setIfGiven kw.text r.text
    language := setIfGiven kw.language r.language
    duration := setIfGiven kw.duration r.duration
    created_at := kw.created_at.getD r.created_at
    completed_at := setIfGiven kw.completed_at r.completed_at
    error_message := setIfGiven kw.error_message r.error_message }

/-- Embedding of `InMemoryStorage.update_transcription`: returns `False` and
leaves the dict untouched when the id is absent; otherwise applies every
known keyword with `setattr` and returns `True`. -/
def update_transcription (s : InMemoryStorage) (transcription_id : Nat)
    (kw : UpdateKwargs) : Bool × InMemoryStorage :=
  match lookupA s.storage transcription_id with
  | none => (false, s)
  | some result =>
      (true,
       { s with storage := insertA s.storage transcription_id (applyKwargs result kw) })

/-- Embedding of `InMemoryStorage.delete_transcription`. -/
def delete_transcription (s : InMemoryStorage) (transcription_id : Nat) :
    Bool × InMemoryStorage :=
  match lookupA s.storage transcription_id with
  | none => (false, s)
  | some _ => (true, { s with storage := eraseA s.storage transcription_id })

/-- Embedding of `InMemoryStorage._cleanup_old_transcriptions`. The cutoff is
`now - window` where `window` is `settings.CLEANUP_INTERVAL_HOURS` converted
to seconds (the config module of the FastAPI service is not part of the
sources, so the window is kept as a parameter). The source first collects the
ids with `created_at < cutoff_time`, then deletes each one. -/
def cleanup_old_transcriptions (s : InMemoryStorage) (now window : Int) :
    InMemoryStorage :=
  let cutoff_time := now - window
  let to_delete :=
    (s.storage.filter (fun p => p.2.created_at < cutoff_time)).map (fun p => p.1)
  to_delete.foldl (fun st tid => (delete_transcription st tid).2) s

/-! ## Worker (`transcription_service.py`, `TranscriptionService.transcribe_video`) -/

/-- Outcome of the fallible middle of `transcribe_video` (model loading, audio
extraction, Whisper inference): either the result dict of
`_transcribe_audio_sync` or the exception caught by the `except` clause,
carrying `str(e)` (which may be the empty string, e.g. for `Exception()`). -/
inductive PipelineOutcome : Type where
  | success (text : String) (language : String) (duration : ℚ)
  | failure (msg : String)
  deriving DecidableEq, Repr

/-- Embedding of `TranscriptionService.transcribe_video`. The first statement
of the `try` block updates the status to PROCESSING and cannot raise; every
later failure is caught by the `except` clause, which records FAILED with
`error_message = str(e)`. `elapsed` is the wall-clock duration of the run in
seconds; the source contains no timeout logic, so the definition never
inspects it. `now` stands for `datetime.now(timezone.utc)` at completion. -/
def transcribe_video (s : InMemoryStorage) (transcription_id : Nat)
    (elapsed : Int) (outcome : PipelineOutcome) (now : Int) : InMemoryStorage :=
  let s1 := (update_transcription s transcription_id
    { status := some TranscriptionStatus.processing }).2
  match outcome with
  | PipelineOutcome.success text language duration =>
      (update_transcription s1 transcription_id
        { status := some TranscriptionStatus.completed
          text := some text
          language := some language
          duration := some duration
          completed_at := some now }).2
  | PipelineOutcome.failure msg =>
      (update_transcription s1 transcription_id
        { status := some TranscriptionStatus.failed
          error_message := some msg
          completed_at := some now }).2

/-- Status of a task as seen by a poller of `get_transcription`. -/
def statusOf (s : InMemoryStorage) (transcription_id : Nat) :
    Option TranscriptionStatus :=
  (get_transcription s transcription_id).map (fun r => r.status)

/-- Terminal statuses of the lifecycle. -/
def terminalStatus (st : TranscriptionStatus) : Prop :=
  st = TranscriptionStatus.completed ∨ st = TranscriptionStatus.failed

/-- Exactly one of the result text and the error message is set. -/
def resultXorError (r : TranscriptionResult) : Prop :=
  (r.text.isSome ∧ r.error_message = none) ∨
  (r.text = none ∧ r.error_message.isSome)

/-! ## Operation sequences on the task registry -/

/-- One externally invokable operation on `InMemoryStorage`, as used to state
freshness of created ids across an arbitrary history. -/
inductive StorageOp : Type where
  | createOp (language : Option String) (now : Int)
  | updateOp (transcription_id : Nat) (kw : UpdateKwargs)
  | deleteOp (transcription_id : Nat)
  | cleanupOp (now window : Int)
  | transcribeOp (transcription_id : Nat) (elapsed : Int)
      (outcome : PipelineOutcome) (now : Int)

/-- Effect of one operation on the registry state. -/
def applyOp (s : InMemoryStorage) : StorageOp → InMemoryStorage
  | StorageOp.createOp language now => (create_transcription s language now).2
  | StorageOp.updateOp tid kw => (update_transcription s tid kw).2
  | StorageOp.deleteOp tid => (delete_transcription s tid).2
  | StorageOp.cleanupOp now window => cleanup_old_transcriptions s now window
  | StorageOp.transcribeOp tid elapsed outcome now =>
      transcribe_video s tid elapsed outcome now

/-- The ids handed out by the `create` operations of a history, in order. -/
def createdIds (s : InMemoryStorage) : List StorageOp → List Nat
  | [] => []
  | op :: rest =>
      match op with
      | StorageOp.createOp language now =>
          (create_transcription s language now).1 ::
            createdIds (applyOp s op) rest
      | _ => createdIds (applyOp s op) rest

/-! ## Flask audio-extraction service (`app.py`) -/

/-- Embedding of the status strings stored in `processing_status` by
`app.py`: one of the literals queued, processing, completed, failed. -/
inductive FStatus : Type where
  | queued
  | processing
  | completed
  | failed
  deriving DecidableEq, Repr

/-- Embedding of one `processing_status[task_id]` dict of `app.py`; the keys
audio_path and error are added later, hence optional. -/
structure FTask : Type where
  status : FStatus
  created_at : Int
  original_filename : String
  audio_path : Option String := none
  error : Option String := none
  deriving DecidableEq, Repr

/-- Embedding of the mutable state of `app.py`: the `processing_status` dict,
the set of files currently existing on disk, and the `remove_files` cleanup
threads that `download_audio` has spawned but that have not run yet (each
holds the captured `task_id` and `audio_path`). -/
structure AppState : Type where
  processing_status : List (String × FTask) := []
  files : List String := []
  pending_removals : List (String × String) := []
  deriving DecidableEq, Repr

/-- Behaviour of one `subprocess.run` invocation of ffmpeg: either the
process finishes after `seconds` of wall-clock time with a return code and
stderr text, or `subprocess.run` itself raises with message `msg`. -/
inductive FfmpegRun : Type where
  | finishes (seconds : Int) (returncode : Int) (stderr : String)
  | raises (msg : String)
  deriving DecidableEq, Repr

/-- Embedding of `extract_audio_ffmpeg` of `app.py`: `subprocess.run` is
called with `timeout=300`, so a run whose wall-clock time exceeds 300
seconds raises `subprocess.TimeoutExpired`, caught by its own dedicated
`except` branch; otherwise the return code decides success. -/
def extract_audio_ffmpeg (run : FfmpegRun) : Bool × String :=
  match run with
  | FfmpegRun.finishes seconds returncode stderr =>
      if seconds > 300 then
        (false, "Processing timeout (5 minutes exceeded)")
      else if returncode = 0 then
        (true, "Audio extracted successfully")
      else
        (false, "FFmpeg error: " ++ stderr)
  | FfmpegRun.raises msg =>
      (false, "Error during extraction: " ++ msg)

/-- Mutation of one entry of `processing_status` (the callers of `app.py`
only mutate entries they created at upload time). -/
def updateFTask (st : AppState) (task_id : String) (f : FTask → FTask) : AppState :=
  match lookupA st.processing_status task_id with
  | none => st
  | some info =>
      { st with processing_status := insertA st.processing_status task_id (f info) }

/-- Embedding of `process_video_async` of `app.py`: set the status to
processing, run the extraction, then either record completed together with
the `audio_path` key (the artifact registration) or record failed with the
error message; the `finally` block always deletes the uploaded video file.
On success ffmpeg has written the audio file to disk. -/
def process_video_async (st : AppState) (task_id : String)
    (video_path audio_path : String) (run : FfmpegRun) : AppState :=
  let st1 := updateFTask st task_id (fun t => { t with status := FStatus.processing })
  let res := extract_audio_ffmpeg run
  let st2 :=
    if res.1 then
      let stf := { st1 with files := audio_path :: st1.files }
      updateFTask stf task_id
        (fun t => { t with status := FStatus.completed, audio_path := some audio_path })
    else
      updateFTask st1 task_id
        (fun t => { t with status := FStatus.failed, error := some res.2 })
  { st2 with files := st2.files.filter (fun p => p ≠ video_path) }

/-- Result of the `/audio/<task_id>` route of `app.py`. -/
inductive DownloadResult : Type where
  | taskNotFound
  | audioNotReady (status : FStatus)
  | audioFileNotFound
  | sent (path : String)
  deriving DecidableEq, Repr

/-- Embedding of `download_audio` of `app.py`: 404 when the task id is
unknown, 400 while not completed, 404 when the audio file is gone; on
success the file is sent and a `remove_files` thread is scheduled (it runs
only after a one-second delay, modelled by `pending_removals`). The
derivation of the download file name is presentation only and is omitted. -/
def download_audio (st : AppState) (task_id : String) : DownloadResult × AppState :=
  match lookupA st.processing_status task_id with
  | none => (DownloadResult.taskNotFound, st)
  | some info =>
      if info.status ≠ FStatus.completed then
        (DownloadResult.audioNotReady info.status, st)
      else
        match info.audio_path with
        | none => (DownloadResult.audioFileNotFound, st)
        | some p =>
            if p ∈ st.files then
              (DownloadResult.sent p,
               { st with pending_removals := st.pending_removals ++ [(task_id, p)] })
            else
              (DownloadResult.audioFileNotFound, st)

/-- Embedding of the body of `remove_files` inside `download_audio`: delete
the audio file if it still exists and drop the task entry if still present. -/
def remove_files (st : AppState) (task_id : String) (audio_path : String) : AppState :=
  { st with
    files := st.files.filter (fun p => p ≠ audio_path)
    processing_status := eraseA st.processing_status task_id }

/-- Execution of the oldest scheduled `remove_files` thread, after its
one-second delay has elapsed. -/
def run_pending_removal (st : AppState) : AppState :=
  match st.pending_removals with
  | [] => st
  | (task_id, p) :: rest =>
      remove_files { st with pending_removals := rest } task_id p

/-! ## Artifact store (`file_manager.py`, class `FileManager`, and
`utils.safe_delete_file`) -/

/-- Embedding of one value of the `_file_map` dict of `FileManager`. -/
structure FileEntry : Type where
  path : String
  timestamp : Int
  ftype : String
  deriving DecidableEq, Repr

/-- Embedding of the mutable state of `FileManager` together with the set of
files existing on disk. -/
structure FileManagerState : Type where
  file_map : List (String × FileEntry) := []
  files : List String := []
  deriving DecidableEq, Repr

/-- Embedding of `utils.safe_delete_file`: removes the file and returns
`True` when it exists, returns `False` when it does not. (An OS-level
deletion error also returns `False`; the pure model has no such failures.) -/
def safe_delete_file (files : List String) (file_path : String) :
    Bool × List String :=
  if file_path ∈ files then (true, files.filter (fun p => p ≠ file_path))
  else (false, files)

/-- Embedding of `FileManager.register_file`; the generated uuid is the
`file_id` argument. -/
def register_file (st : FileManagerState) (file_id : String)
    (file_path : String) (now : Int) (file_type : String) : FileManagerState :=
  { st with
    file_map := insertA st.file_map file_id
      { path := file_path, timestamp := now, ftype := file_type } }

/-- Embedding of `FileManager.get_file_path`: returns the path when the
record exists and the file is present; when the record exists but the file
is gone it purges the record and returns `None`. -/
def get_file_path (st : FileManagerState) (file_id : String) :
    Option String × FileManagerState :=
  match lookupA st.file_map file_id with
  | none => (none, st)
  | some info =>
      if info.path ∈ st.files then (some info.path, st)
      else (none, { st with file_map := eraseA st.file_map file_id })

/-- Embedding of `FileManager.delete_file`: deletes the backing file with
`safe_delete_file` and removes the record from the map regardless of the
deletion result. -/
def delete_file (st : FileManagerState) (file_id : String) :
    Bool × FileManagerState :=
  match lookupA st.file_map file_id with
  | none => (false, st)
  | some info =>
      let res := safe_delete_file st.files info.path
      (res.1, { file_map := eraseA st.file_map file_id, files := res.2 })

/-- Embedding of `FileManager.cleanup_expired_files`: collect the ids whose
age exceeds `max_file_age`, then delete each one with `delete_file`. -/
def cleanup_expired_files (st : FileManagerState) (now max_file_age : Int) :
    FileManagerState :=
  let expired :=
    (st.file_map.filter (fun p => now - p.2.timestamp > max_file_age)).map
      (fun p => p.1)
  expired.foldl (fun s fid => (delete_file s fid).2) st

/-- Store invariant: every record of the map points at an existing file. -/
def liveRecordsBacked (st : FileManagerState) : Prop :=
  ∀ p ∈ st.file_map, p.2.path ∈ st.files

/-- Store invariant: no two entries of the map share a backing path
(spec §3: a storagePath is referenced by at most one live ArtifactRecord). -/
def pathsNodup (st : FileManagerState) : Prop :=
  (st.file_map.map (fun p => p.2.path)).Nodup

/-! ## Dispatch traces (`main.py` transcribe endpoint, `app.py` upload) -/

/-- Observable lifecycle events of the dispatched background work: task `k`
entering PROCESSING, and task `k` reaching a terminal state. -/
inductive TaskEvent : Type where
  | setProcessing (k : Nat)
  | setTerminal (k : Nat)
  deriving DecidableEq, Repr

/-- The task an event belongs to. -/
def evTask : TaskEvent → Nat
  | TaskEvent.setProcessing k => k
  | TaskEvent.setTerminal k => k

/-- The subsequence of a trace belonging to task `k`. -/
def taskEvents (tr : List TaskEvent) (k : Nat) : List TaskEvent :=
  tr.filter (fun e => evTask e == k)

/-- The traces the code can produce for `N` submitted tasks: both services
dispatch each task as an independent detached unit of work
(`asyncio.create_task` in `main.py`, a daemon `threading.Thread` in
`app.py`), so a trace is any interleaving of the per-task event sequences;
each task by itself first enters PROCESSING and later reaches a terminal
state exactly once. -/
def validTrace (N : Nat) (tr : List TaskEvent) : Prop :=
  (∀ e ∈ tr, evTask e < N) ∧
  ∀ k < N, taskEvents tr k = [TaskEvent.setProcessing k, TaskEvent.setTerminal k]

/-- FIFO processing discipline claimed by the spec: task `k` enters
PROCESSING only after task `k-1` has reached a terminal state. -/
def fifoOrdered (N : Nat) (tr : List TaskEvent) : Prop :=
  ∀ k < N, 0 < k →
    tr.indexOf (TaskEvent.setTerminal (k - 1)) <
      tr.indexOf (TaskEvent.setProcessing k)

/-! ## Concrete states used to instantiate the claims -/

/-- A registry holding the single PENDING task 1, created at time 0 (the
state right after the first `create_transcription` on an empty registry). -/
def pendingTask1 : InMemoryStorage :=
  { storage := [(1, { id := 1, status := TranscriptionStatus.pending, created_at := 0 })]
    next_id := 2 }

/-- A registry holding the single COMPLETED task 1 with its text set (the
state after a successful worker run). -/
def completedTask1 : InMemoryStorage :=
  { storage := [(1, { id := 1, status := TranscriptionStatus.completed,
                      text := some "hello", language := some "en",
                      created_at := 0, completed_at := some 5 })]
    next_id := 2 }

/-- A Flask app state holding one completed extraction task whose audio file
exists on disk, ready for download. -/
def flaskCompleted : AppState :=
  { processing_status :=
      [("t1", { status := FStatus.completed, created_at := 0,
                original_filename := "v.mp4",
                audio_path := some "audio_output/t1.mp3" })]
    files := ["audio_output/t1.mp3"] }

/-- A Flask app state holding one freshly queued task, as `upload_video`
leaves it before the background worker runs. -/
def flaskQueued : AppState :=
  { processing_status :=
      [("t1", { status := FStatus.queued, created_at := 0,
                original_filename := "v.mp4" })]
    files := ["uploads/t1.mp4"] }

/-- A file-manager state holding one registered artifact whose backing file
exists on disk. -/
def fmOneArtifact : FileManagerState :=
  { file_map := [("a1", { path := "tmp/out1.mp3", timestamp := 0, ftype := "audio" })]
    files := ["tmp/out1.mp3", "tmp/other.mp3"] }

/-- The out-of-order dispatch trace used against the FIFO claim: both tasks
are dispatched as detached background work, task 1 starts processing before
task 0 finishes. -/
def outOfOrderTrace : List TaskEvent :=
  [TaskEvent.setProcessing 0, TaskEvent.setProcessing 1,
   TaskEvent.setTerminal 1, TaskEvent.setTerminal 0]

/-! ## Supporting lemmas -/

@[simp] theorem lookupA_nil {κ α : Type} [DecidableEq κ] (key : κ) :
    lookupA ([] : List (κ × α)) key = none := rfl

@[simp] theorem lookupA_cons {κ α : Type} [DecidableEq κ] (k : κ) (v : α)
    (rest : List (κ × α)) (key : κ) :
    lookupA ((k, v) :: rest) key = if k = key then some v else lookupA rest key := rfl

@[simp] theorem lookupA_insertA_self {κ α : Type} [DecidableEq κ]
    (l : List (κ × α)) (key : κ) (v : α) :
    lookupA (insertA l key v) key = some v := by
  induction l with
  | nil => simp [insertA]
  | cons hd tl ih =>
      obtain ⟨k, w⟩ := hd
      by_cases h : k = key <;> simp [insertA, h, ih]

@[simp] theorem lookupA_insertA_ne {κ α : Type} [DecidableEq κ]
    (l : List (κ × α)) (key key' : κ) (v : α) (h : key ≠ key') :
    lookupA (insertA l key v) key' = lookupA l key' := by
  induction l with
  | nil => simp [insertA, h]
  | cons hd tl ih =>
      obtain ⟨k, w⟩ := hd
      by_cases hk : k = key
      · subst hk; simp [insertA, h]
      · simp only [insertA, if_neg hk, lookupA_cons, ih]

@[simp] theorem lookupA_eraseA_self {κ α : Type} [DecidableEq κ]
    (l : List (κ × α)) (key : κ) :
    lookupA (eraseA l key) key = none := by
  induction l with
  | nil => simp [eraseA]
  | cons hd tl ih =>
      obtain ⟨k, w⟩ := hd
      by_cases h : k = key
      · simpa [eraseA, h] using ih
      · simpa [eraseA, h] using ih

@[simp] theorem lookupA_eraseA_ne {κ α : Type} [DecidableEq κ]
    (l : List (κ × α)) (key key' : κ) (h : key ≠ key') :
    lookupA (eraseA l key) key' = lookupA l key' := by
  induction l with
  | nil => simp [eraseA]
  | cons hd tl ih =>
      obtain ⟨k, w⟩ := hd
      by_cases hk : k = key
      · subst hk
        simp [eraseA, ih, h]
      · by_cases hk' : k = key' <;>
          simp [eraseA, hk, hk', ih, Ne.symm h]

theorem string_ne_append_of_take (target pre : String) (n : Nat)
    (hlen : pre.data.length = n)
    (hne : target.data.take n ≠ pre.data) :
    ∀ s, target ≠ pre ++ s := by
  intro s h
  have h2 := congrArg (fun t => t.data.take n) h
  simp only at h2
  have h3 : (pre ++ s).data = pre.data ++ s.data := rfl
  rw [h3] at h2
  have h4 : (pre.data ++ s.data).take n = pre.data := by
    rw [← hlen, List.take_left]
  rw [h4] at h2
  exact hne h2

theorem mem_insertA {κ α : Type} [DecidableEq κ] {l : List (κ × α)}
    {key : κ} {v : α} {p : κ × α} (h : p ∈ insertA l key v) :
    p ∈ l ∨ p = (key, v) := by
  induction l with
  | nil => simpa [insertA] using h
  | cons hd tl ih =>
      obtain ⟨k, w⟩ := hd
      by_cases hk : k = key
      · simp only [insertA, if_pos hk, List.mem_cons] at h
        rcases h with h | h
        · exact Or.inr h
        · exact Or.inl (List.mem_cons_of_mem _ h)
      · simp only [insertA, if_neg hk, List.mem_cons] at h
        rcases h with h | h
        · exact Or.inl (by simp [h])
        · rcases ih h with h' | h'
          · exact Or.inl (List.mem_cons_of_mem _ h')
          · exact Or.inr h'

theorem lookupA_eq_none_of_not_mem {κ α : Type} [DecidableEq κ]
    {l : List (κ × α)} {key : κ} (h : key ∉ l.map Prod.fst) :
    lookupA l key = none := by
  induction l with
  | nil => rfl
  | cons hd tl ih =>
      obtain ⟨k, w⟩ := hd
      simp only [List.map_cons, List.mem_cons] at h
      push_neg at h
      simp [lookupA, Ne.symm h.1, ih h.2]

theorem not_mem_keys_of_lookupA_none {κ α : Type} [DecidableEq κ]
    {l : List (κ × α)} {key : κ} (h : lookupA l key = none) :
    key ∉ l.map Prod.fst := by
  induction l with
  | nil => simp
  | cons hd tl ih =>
      obtain ⟨k, w⟩ := hd
      by_cases hk : k = key
      · simp [lookupA, hk] at h
      · simp only [lookupA, if_neg hk] at h
        simp [ih h, Ne.symm, hk]

theorem insertA_of_lookupA_none {κ α : Type} [DecidableEq κ]
    {l : List (κ × α)} {key : κ} (v : α) (h : lookupA l key = none) :
    insertA l key v = l ++ [(key, v)] := by
  induction l with
  | nil => rfl
  | cons hd tl ih =>
      obtain ⟨k, w⟩ := hd
      by_cases hk : k = key
      · simp [lookupA, hk] at h
      · simp only [lookupA, if_neg hk] at h
        simp [insertA, hk, ih h]

theorem lookupA_mem {κ α : Type} [DecidableEq κ]
    {l : List (κ × α)} {key : κ} {v : α} (h : lookupA l key = some v) :
    (key, v) ∈ l := by
  induction l with
  | nil => simp [lookupA] at h
  | cons hd tl ih =>
      obtain ⟨k, w⟩ := hd
      by_cases hk : k = key
      · subst hk
        have h' : w = v := by simpa [lookupA] using h
        subst h'
        exact List.mem_cons_self _ _
      · simp only [lookupA, if_neg hk] at h
        exact List.mem_cons_of_mem _ (ih h)

theorem eraseA_sublist {κ α : Type} [DecidableEq κ]
    (l : List (κ × α)) (key : κ) : (eraseA l key).Sublist l := by
  induction l with
  | nil => simp [eraseA]
  | cons hd tl ih =>
      obtain ⟨k, w⟩ := hd
      by_cases hk : k = key
      · simpa [eraseA, hk] using ih.cons (k, w)
      · simpa [eraseA, hk] using ih.cons₂ (k, w)

theorem mem_eraseA {κ α : Type} [DecidableEq κ]
    {l : List (κ × α)} {key : κ} {p : κ × α} (h : p ∈ eraseA l key) :
    p ∈ l ∧ p.1 ≠ key := by
  induction l with
  | nil => simp [eraseA] at h
  | cons hd tl ih =>
      obtain ⟨k, w⟩ := hd
      by_cases hk : k = key
      · simp only [eraseA, if_pos hk] at h
        exact ⟨List.mem_cons_of_mem _ (ih h).1, (ih h).2⟩
      · simp only [eraseA, if_neg hk, List.mem_cons] at h
        rcases h with h | h
        · exact ⟨by simp [h], by simp [h, hk]⟩
        · exact ⟨List.mem_cons_of_mem _ (ih h).1, (ih h).2⟩

theorem lookupA_delete_transcription (s : InMemoryStorage) (k tid : Nat) :
    lookupA (delete_transcription s k).2.storage tid =
      if tid = k then none else lookupA s.storage tid := by
  unfold delete_transcription
  by_cases h : tid = k
  · subst h
    cases hl : lookupA s.storage tid with
    | none => simp [hl]
    | some r => simp [hl]
  · cases hl : lookupA s.storage k with
    | none => simp [hl, h]
    | some r => simp [hl, h, lookupA_eraseA_ne _ _ _ (Ne.symm h)]

theorem next_id_delete_transcription (s : InMemoryStorage) (k : Nat) :
    (delete_transcription s k).2.next_id = s.next_id := by
  unfold delete_transcription
  cases hl : lookupA s.storage k <;> simp [hl]

theorem lookupA_foldDelete (L : List Nat) (s : InMemoryStorage) (tid : Nat) :
    lookupA (L.foldl (fun st k => (delete_transcription st k).2) s).storage tid =
      if tid ∈ L then none else lookupA s.storage tid := by
  induction L generalizing s with
  | nil => simp
  | cons hd tl ih =>
      simp only [List.foldl_cons, List.mem_cons]
      rw [ih]
      by_cases h1 : tid ∈ tl
      · simp [h1]
      · by_cases h2 : tid = hd <;>
          simp [h1, h2, lookupA_delete_transcription]

theorem next_id_foldDelete (L : List Nat) (s : InMemoryStorage) :
    (L.foldl (fun st k => (delete_transcription st k).2) s).next_id = s.next_id := by
  induction L generalizing s with
  | nil => rfl
  | cons hd tl ih => simp [ih, next_id_delete_transcription]

theorem get_transcription_cleanup (s : InMemoryStorage) (now window : Int)
    (tid : Nat) :
    get_transcription (cleanup_old_transcriptions s now window) tid =
      if tid ∈ (s.storage.filter
          (fun p => p.2.created_at < now - window)).map (fun p => p.1)
      then none else get_transcription s tid := by
  unfold cleanup_old_transcriptions get_transcription
  exact lookupA_foldDelete _ _ _

theorem update_transcription_some (s : InMemoryStorage) (tid : Nat)
    (r : TranscriptionResult) (kw : UpdateKwargs)
    (h : get_transcription s tid = some r) :
    update_transcription s tid kw =
      (true, { s with storage := insertA s.storage tid (applyKwargs r kw) }) := by
  unfold update_transcription
  unfold get_transcription at h
  rw [h]

theorem get_transcription_update_self (s : InMemoryStorage) (tid : Nat)
    (r : TranscriptionResult) (kw : UpdateKwargs)
    (h : get_transcription s tid = some r) :
    get_transcription (update_transcription s tid kw).2 tid =
      some (applyKwargs r kw) := by
  rw [update_transcription_some s tid r kw h]
  unfold get_transcription
  exact lookupA_insertA_self _ _ _

theorem next_id_update_transcription (s : InMemoryStorage) (tid : Nat)
    (kw : UpdateKwargs) :
    (update_transcription s tid kw).2.next_id = s.next_id := by
  unfold update_transcription
  cases hl : lookupA s.storage tid <;> simp [hl]

theorem get_transcribe_video (s : InMemoryStorage) (tid : Nat)
    (r : TranscriptionResult) (elapsed : Int) (outcome : PipelineOutcome)
    (now : Int) (h : get_transcription s tid = some r) :
    get_transcription (transcribe_video s tid elapsed outcome now) tid =
      some (match outcome with
        | PipelineOutcome.success text language duration =>
            { r with status := TranscriptionStatus.completed
                     text := some text
                     language := some language
                     duration := some duration
                     completed_at := some now }
        | PipelineOutcome.failure msg =>
            { r with status := TranscriptionStatus.failed
                     error_message := some msg
                     completed_at := some now }) := by
  unfold transcribe_video
  have h1 := get_transcription_update_self s tid r
    { status := some TranscriptionStatus.processing } h
  cases outcome with
  | success text language duration =>
      simp only []
      rw [get_transcription_update_self _ tid _ _ h1]
      simp [applyKwargs, setIfGiven]
  | failure msg =>
      simp only []
      rw [get_transcription_update_self _ tid _ _ h1]
      simp [applyKwargs, setIfGiven]

theorem next_id_transcribe_video (s : InMemoryStorage) (tid : Nat)
    (elapsed : Int) (outcome : PipelineOutcome) (now : Int) :
    (transcribe_video s tid elapsed outcome now).next_id = s.next_id := by
  unfold transcribe_video
  cases outcome <;>
    simp [next_id_update_transcription]

theorem next_id_cleanup (s : InMemoryStorage) (now window : Int) :
    (cleanup_old_transcriptions s now window).next_id = s.next_id := by
  unfold cleanup_old_transcriptions
  exact next_id_foldDelete _ _

theorem next_id_applyOp_mono (s : InMemoryStorage) (op : StorageOp) :
    s.next_id ≤ (applyOp s op).next_id := by
  cases op with
  | createOp language now => simp [applyOp, create_transcription]
  | updateOp tid kw => simp [applyOp, next_id_update_transcription]
  | deleteOp tid => simp [applyOp, next_id_delete_transcription]
  | cleanupOp now window => simp [applyOp, next_id_cleanup]
  | transcribeOp tid elapsed outcome now => simp [applyOp, next_id_transcribe_video]

theorem createdIds_lower_bound (ops : List StorageOp) :
    ∀ (s : InMemoryStorage) (tid : Nat), tid ∈ createdIds s ops →
      s.next_id ≤ tid := by
  induction ops with
  | nil => intro s tid h; simp [createdIds] at h
  | cons op rest ih =>
      intro s tid h
      cases op with
      | createOp language now =>
          simp only [createdIds, List.mem_cons] at h
          rcases h with h | h
          · simp [h, create_transcription]
          · have h2 := ih _ _ h
            have h3 : (applyOp s (StorageOp.createOp language now)).next_id =
                s.next_id + 1 := by simp [applyOp, create_transcription]
            omega
      | updateOp tid2 kw =>
          have h2 := ih _ _ h
          have h3 := next_id_applyOp_mono s (StorageOp.updateOp tid2 kw)
          omega
      | deleteOp tid2 =>
          have h2 := ih _ _ h
          have h3 := next_id_applyOp_mono s (StorageOp.deleteOp tid2)
          omega
      | cleanupOp now window =>
          have h2 := ih _ _ h
          have h3 := next_id_applyOp_mono s (StorageOp.cleanupOp now window)
          omega
      | transcribeOp tid2 elapsed outcome now =>
          have h2 := ih _ _ h
          have h3 := next_id_applyOp_mono s
            (StorageOp.transcribeOp tid2 elapsed outcome now)
          omega

theorem createdIds_pairwise_lt (ops : List StorageOp) :
    ∀ s : InMemoryStorage, (createdIds s ops).Pairwise (fun a b => a < b) := by
  induction ops with
  | nil => intro s; simp [createdIds]
  | cons op rest ih =>
      intro s
      cases op with
      | createOp language now =>
          simp only [createdIds]
          refine List.Pairwise.cons ?_ (ih _)
          intro b hb
          have h2 := createdIds_lower_bound rest _ _ hb
          have h3 : (applyOp s (StorageOp.createOp language now)).next_id =
              s.next_id + 1 := by simp [applyOp, create_transcription]
          simp only [create_transcription]
          omega
      | updateOp tid kw => exact ih _
      | deleteOp tid => exact ih _
      | cleanupOp now window => exact ih _
      | transcribeOp tid elapsed outcome now => exact ih _

theorem get_transcription_delete (s : InMemoryStorage) (k tid : Nat) :
    get_transcription (delete_transcription s k).2 tid =
      if tid = k then none else get_transcription s tid :=
  lookupA_delete_transcription s k tid

/-! ## Claim theorems -/

/-- C7: every call to `create_transcription` returns a fresh id never handed
out by any earlier create of the history, the inserted record is PENDING
with `created_at` equal to the creation time, and the call is a total
function (it never fails). -/
theorem C7_create_fresh_pending_id :
    (∀ (s : InMemoryStorage) (language : Option String) (now : Int),
        (create_transcription s language now).1 = s.next_id ∧
        get_transcription (create_transcription s language now).2
            (create_transcription s language now).1 =
          some { id := s.next_id
                 status := TranscriptionStatus.pending
                 language := language
                 created_at := now }) ∧
    (∀ (s : InMemoryStorage) (ops : List StorageOp),
        (createdIds s ops).Pairwise (fun a b => a ≠ b)) := by
  constructor
  · intro s language now
    exact ⟨rfl, by simp [create_transcription, get_transcription]⟩
  · intro s ops
    exact (createdIds_pairwise_lt ops s).imp (fun h => Nat.ne_of_lt h)

/-- C10: an update on an absent id returns `False` and leaves the registry
(and the whole storage state) unchanged; an update on a present id returns
`True` and keyword fields that are not attributes of the record are silently
ignored (the result does not depend on them). -/
theorem C10_update_absent_false_unknown_kwargs_ignored :
    (∀ (s : InMemoryStorage) (tid : Nat) (kw : UpdateKwargs),
        get_transcription s tid = none →
        update_transcription s tid kw = (false, s)) ∧
    (∀ (s : InMemoryStorage) (tid : Nat) (r : TranscriptionResult)
        (kw : UpdateKwargs) (ex : List String),
        get_transcription s tid = some r →
        (update_transcription s tid kw).1 = true ∧
        update_transcription s tid { kw with extra := ex } =
          update_transcription s tid kw) := by
  constructor
  · intro s tid kw h
    unfold update_transcription
    unfold get_transcription at h
    rw [h]
  · intro s tid r kw ex h
    refine ⟨by rw [update_transcription_some s tid r kw h], ?_⟩
    rw [update_transcription_some s tid r _ h,
      update_transcription_some s tid r kw h]
    rfl

/-- Witness for C10 at a concrete registry: updating the absent id 99 fails
and changes nothing; updating the present id 1 with the unknown keyword
bogus_field succeeds and behaves exactly like the update without it. -/
theorem C10_update_absent_false_unknown_kwargs_ignored_witness :
    update_transcription pendingTask1 99
        { status := some TranscriptionStatus.completed } = (false, pendingTask1) ∧
    ((update_transcription pendingTask1 1 { text := some "x" }).1 = true ∧
      update_transcription pendingTask1 1
          { text := some "x", extra := ["bogus_field"] } =
        update_transcription pendingTask1 1 { text := some "x" }) :=
  ⟨C10_update_absent_false_unknown_kwargs_ignored.1 pendingTask1 99 _ (by decide),
   C10_update_absent_false_unknown_kwargs_ignored.2 pendingTask1 1
     { id := 1, status := TranscriptionStatus.pending, created_at := 0 }
     { text := some "x" } ["bogus_field"] (by decide)⟩

/-- C8: after one cleanup sweep, a task whose age strictly exceeds the
retention window is no longer found by `get_transcription`, while a task
within the window is still returned unchanged. -/
theorem C8_cleanup_sweep_retention (s : InMemoryStorage) (now window : Int)
    (tid : Nat) (r : TranscriptionResult)
    (hnodup : (s.storage.map Prod.fst).Nodup)
    (hget : get_transcription s tid = some r) :
    (now - r.created_at > window →
        get_transcription (cleanup_old_transcriptions s now window) tid = none) ∧
    (now - r.created_at ≤ window →
        get_transcription (cleanup_old_transcriptions s now window) tid = some r) := by
  have hmem : (tid, r) ∈ s.storage := lookupA_mem hget
  constructor
  · intro hage
    rw [get_transcription_cleanup, if_pos]
    refine List.mem_map.mpr ⟨(tid, r), List.mem_filter.mpr ⟨hmem, ?_⟩, rfl⟩
    simp only [decide_eq_true_eq]
    omega
  · intro hage
    rw [get_transcription_cleanup, if_neg, hget]
    intro hmem2
    obtain ⟨p, hp, hfst⟩ := List.mem_map.mp hmem2
    obtain ⟨hpmem, hcond⟩ := List.mem_filter.mp hp
    have hpeq : p = (tid, r) :=
      List.inj_on_of_nodup_map hnodup hpmem hmem (by simpa using hfst)
    rw [hpeq] at hcond
    simp only [decide_eq_true_eq] at hcond
    omega

/-- Witness for C8: in a registry with one task created at time 0, a sweep
at time 10 with window 5 removes it, and a sweep at time 3 with window 5
keeps it. -/
theorem C8_cleanup_sweep_retention_witness :
    (get_transcription (cleanup_old_transcriptions pendingTask1 10 5) 1 = none) ∧
    (get_transcription (cleanup_old_transcriptions pendingTask1 3 5) 1 =
      some { id := 1, status := TranscriptionStatus.pending, created_at := 0 }) :=
  ⟨(C8_cleanup_sweep_retention pendingTask1 10 5 1
      { id := 1, status := TranscriptionStatus.pending, created_at := 0 }
      (by decide) (by decide)).1 (by decide),
   (C8_cleanup_sweep_retention pendingTask1 3 5 1
      { id := 1, status := TranscriptionStatus.pending, created_at := 0 }
      (by decide) (by decide)).2 (by decide)⟩

/-- C1 counterexample: `update_transcription` guards no transition, so one
update moves the PENDING task 1 directly to COMPLETED, and a further update
moves it back out of the terminal state to PENDING, both returning `True`. -/
theorem C1_counterexample_unguarded_transitions :
    statusOf pendingTask1 1 = some TranscriptionStatus.pending ∧
    (update_transcription pendingTask1 1
        { status := some TranscriptionStatus.completed }).1 = true ∧
    statusOf (update_transcription pendingTask1 1
        { status := some TranscriptionStatus.completed }).2 1 =
      some TranscriptionStatus.completed ∧
    (update_transcription (update_transcription pendingTask1 1
        { status := some TranscriptionStatus.completed }).2 1
        { status := some TranscriptionStatus.pending }).1 = true ∧
    statusOf (update_transcription (update_transcription pendingTask1 1
        { status := some TranscriptionStatus.completed }).2 1
        { status := some TranscriptionStatus.pending }).2 1 =
      some TranscriptionStatus.pending := by decide

/-- C1 amended: the registry itself does not guard status transitions, but
the update sequence issued by the worker `transcribe_video` on a PENDING
task follows exactly PENDING → PROCESSING → (COMPLETED on success, FAILED
on failure), never skipping PROCESSING. -/
theorem C1_amended_worker_follows_edges (s : InMemoryStorage) (tid : Nat)
    (r : TranscriptionResult) (elapsed : Int) (outcome : PipelineOutcome)
    (now : Int) (hget : get_transcription s tid = some r)
    (hpending : r.status = TranscriptionStatus.pending) :
    statusOf s tid = some TranscriptionStatus.pending ∧
    statusOf (update_transcription s tid
        { status := some TranscriptionStatus.processing }).2 tid =
      some TranscriptionStatus.processing ∧
    ((∃ text language duration,
        outcome = PipelineOutcome.success text language duration) →
      statusOf (transcribe_video s tid elapsed outcome now) tid =
        some TranscriptionStatus.completed) ∧
    ((∃ msg, outcome = PipelineOutcome.failure msg) →
      statusOf (transcribe_video s tid elapsed outcome now) tid =
        some TranscriptionStatus.failed) := by
  refine ⟨by simp [statusOf, hget, hpending], ?_, ?_, ?_⟩
  · rw [statusOf, get_transcription_update_self s tid r _ hget]
    simp [applyKwargs]
  · rintro ⟨text, language, duration, rfl⟩
    rw [statusOf, get_transcribe_video s tid r elapsed _ now hget]
    simp
  · rintro ⟨msg, rfl⟩
    rw [statusOf, get_transcribe_video s tid r elapsed _ now hget]
    simp

/-- Witness for the amended C1 at a concrete pending task, one successful
run and one failing run. -/
theorem C1_amended_worker_follows_edges_witness :
    (statusOf pendingTask1 1 = some TranscriptionStatus.pending ∧
      statusOf (update_transcription pendingTask1 1
          { status := some TranscriptionStatus.processing }).2 1 =
        some TranscriptionStatus.processing ∧
      ((∃ text language duration,
          PipelineOutcome.success "hi" "en" (3 : ℚ) =
            PipelineOutcome.success text language duration) →
        statusOf (transcribe_video pendingTask1 1 2
            (PipelineOutcome.success "hi" "en" 3) 9) 1 =
          some TranscriptionStatus.completed) ∧
      ((∃ msg, PipelineOutcome.success "hi" "en" (3 : ℚ) =
          PipelineOutcome.failure msg) →
        statusOf (transcribe_video pendingTask1 1 2
            (PipelineOutcome.success "hi" "en" 3) 9) 1 =
          some TranscriptionStatus.failed)) :=
  C1_amended_worker_follows_edges pendingTask1 1
    { id := 1, status := TranscriptionStatus.pending, created_at := 0 }
    2 (PipelineOutcome.success "hi" "en" 3) 9 (by decide) rfl

/-- C3 counterexample: the worker records `error_message = str(e)`, which is
empty for an exception whose string representation is empty, so the recorded
error message is not always non-empty. -/
theorem C3_counterexample_empty_error_message :
    get_transcription (transcribe_video pendingTask1 1 10
        (PipelineOutcome.failure "") 7) 1 =
      some { id := 1, status := TranscriptionStatus.failed, created_at := 0,
             completed_at := some 7, error_message := some "" } := by decide

/-- C3 amended: on any worker outcome the task ends COMPLETED or FAILED
(never stuck in PROCESSING), and on a failure the worker records FAILED with
`error_message` equal to the exception text (hence non-empty exactly when
that text is non-empty) and `completed_at` set. -/
theorem C3_amended_failure_records_failed (s : InMemoryStorage) (tid : Nat)
    (r : TranscriptionResult) (elapsed now : Int)
    (hget : get_transcription s tid = some r) :
    (∀ outcome, statusOf (transcribe_video s tid elapsed outcome now) tid =
        some TranscriptionStatus.completed ∨
      statusOf (transcribe_video s tid elapsed outcome now) tid =
        some TranscriptionStatus.failed) ∧
    (∀ msg, get_transcription (transcribe_video s tid elapsed
          (PipelineOutcome.failure msg) now) tid =
        some { r with status := TranscriptionStatus.failed,
                      error_message := some msg,
                      completed_at := some now }) := by
  constructor
  · intro outcome
    rw [statusOf, get_transcribe_video s tid r elapsed outcome now hget]
    cases outcome with
    | success text language duration => left; simp
    | failure msg => right; simp
  · intro msg
    rw [get_transcribe_video s tid r elapsed _ now hget]

/-- Witness for the amended C3 at a concrete pending task and the failure
text boom. -/
theorem C3_amended_failure_records_failed_witness :
    ((∀ outcome, statusOf (transcribe_video pendingTask1 1 10 outcome 7) 1 =
        some TranscriptionStatus.completed ∨
      statusOf (transcribe_video pendingTask1 1 10 outcome 7) 1 =
        some TranscriptionStatus.failed) ∧
    (∀ msg, get_transcription (transcribe_video pendingTask1 1 10
          (PipelineOutcome.failure msg) 7) 1 =
        some { id := 1, status := TranscriptionStatus.failed, created_at := 0,
               completed_at := some 7, error_message := some msg })) :=
  C3_amended_failure_records_failed pendingTask1 1
    { id := 1, status := TranscriptionStatus.pending, created_at := 0 }
    10 7 (by decide)

/-- C4 counterexample: `update_transcription` is unguarded, so one update on
the COMPLETED task 1 (whose text is set) also sets the error message,
leaving a terminal task with both the result payload and the error message
set. -/
theorem C4_counterexample_both_set :
    (update_transcription completedTask1 1 { error_message := some "boom" }).1 =
      true ∧
    (get_transcription (update_transcription completedTask1 1
        { error_message := some "boom" }).2 1).map
        (fun r => (r.status, r.text.isSome, r.error_message.isSome)) =
      some (TranscriptionStatus.completed, true, true) := by decide

/-- C4 amended: after the worker's own terminal update on a freshly created
task (text and error message both unset), exactly one of the result text
and the error message is set, and this persists under `get` (read-only),
`delete_transcription` and the cleanup sweep; arbitrary
`update_transcription` calls are not guarded and can break it. -/
theorem C4_amended_result_xor_error (s : InMemoryStorage) (tid : Nat)
    (r : TranscriptionResult) (elapsed : Int) (outcome : PipelineOutcome)
    (now : Int) (hget : get_transcription s tid = some r)
    (htext : r.text = none) (herr : r.error_message = none) :
    ∃ r', get_transcription (transcribe_video s tid elapsed outcome now) tid =
        some r' ∧
      terminalStatus r'.status ∧ resultXorError r' ∧
      (∀ k, get_transcription (delete_transcription
            (transcribe_video s tid elapsed outcome now) k).2 tid = none ∨
        get_transcription (delete_transcription
            (transcribe_video s tid elapsed outcome now) k).2 tid = some r') ∧
      (∀ now2 w, get_transcription (cleanup_old_transcriptions
            (transcribe_video s tid elapsed outcome now) now2 w) tid = none ∨
        get_transcription (cleanup_old_transcriptions
            (transcribe_video s tid elapsed outcome now) now2 w) tid = some r') := by
  have hfin := get_transcribe_video s tid r elapsed outcome now hget
  refine ⟨_, hfin, ?_, ?_, ?_, ?_⟩
  · cases outcome with
    | success text language duration => exact Or.inl rfl
    | failure msg => exact Or.inr rfl
  · cases outcome with
    | success text language duration => exact Or.inl (by simp [herr])
    | failure msg => exact Or.inr (by simp [htext])
  · intro k
    rw [get_transcription_delete]
    by_cases hk : tid = k
    · simp [hk]
    · simp [hk, hfin]
  · intro now2 w
    rw [get_transcription_cleanup]
    by_cases hk : tid ∈ ((transcribe_video s tid elapsed outcome now).storage.filter
        (fun p => p.2.created_at < now2 - w)).map (fun p => p.1)
    · simp [hk]
    · simp [hk, hfin]

/-- Witness for the amended C4 at a concrete pending task and a successful
outcome. -/
theorem C4_amended_result_xor_error_witness :
    ∃ r', get_transcription (transcribe_video pendingTask1 1 2
        (PipelineOutcome.success "hi" "en" 3) 9) 1 = some r' ∧
      terminalStatus r'.status ∧ resultXorError r' ∧
      (∀ k, get_transcription (delete_transcription
            (transcribe_video pendingTask1 1 2
              (PipelineOutcome.success "hi" "en" 3) 9) k).2 1 = none ∨
        get_transcription (delete_transcription
            (transcribe_video pendingTask1 1 2
              (PipelineOutcome.success "hi" "en" 3) 9) k).2 1 = some r') ∧
      (∀ now2 w, get_transcription (cleanup_old_transcriptions
            (transcribe_video pendingTask1 1 2
              (PipelineOutcome.success "hi" "en" 3) 9) now2 w) 1 = none ∨
        get_transcription (cleanup_old_transcriptions
            (transcribe_video pendingTask1 1 2
              (PipelineOutcome.success "hi" "en" 3) 9) now2 w) 1 = some r') :=
  C4_amended_result_xor_error pendingTask1 1
    { id := 1, status := TranscriptionStatus.pending, created_at := 0 }
    2 (PipelineOutcome.success "hi" "en" 3) 9 (by decide) rfl rfl

/-- C2 counterexample: `download_audio` only schedules the deletion (the
`remove_files` thread sleeps one second before deleting), so a second
download issued before the scheduled cleanup has run succeeds again instead
of returning NotFound. -/
theorem C2_counterexample_second_download_in_grace_window :
    (download_audio flaskCompleted "t1").1 =
      DownloadResult.sent "audio_output/t1.mp3" ∧
    (download_audio (download_audio flaskCompleted "t1").2 "t1").1 =
      DownloadResult.sent "audio_output/t1.mp3" := by decide

/-- C2 amended: once the cleanup scheduled by the first successful download
has run, every later download for the same task id returns Task-not-found;
only calls inside the one-second grace window can still succeed. -/
theorem C2_amended_notfound_after_scheduled_cleanup (st : AppState)
    (task_id p : String)
    (hpend : st.pending_removals = [])
    (hsent : (download_audio st task_id).1 = DownloadResult.sent p) :
    (download_audio (run_pending_removal (download_audio st task_id).2)
        task_id).1 = DownloadResult.taskNotFound := by
  cases hl : lookupA st.processing_status task_id with
  | none => simp [download_audio, hl] at hsent
  | some info =>
      by_cases hst : info.status = FStatus.completed
      · cases ha : info.audio_path with
        | none => simp [download_audio, hl, hst, ha] at hsent
        | some pa =>
            by_cases hp : pa ∈ st.files
            · have hstate : (download_audio st task_id).2 =
                  { st with pending_removals :=
                      st.pending_removals ++ [(task_id, pa)] } := by
                simp [download_audio, hl, hst, ha, hp]
              rw [hstate, hpend]
              simp [run_pending_removal, remove_files, download_audio,
                lookupA_eraseA_self]
            · simp [download_audio, hl, hst, ha, hp] at hsent
      · simp [download_audio, hl, hst] at hsent

/-- Witness for the amended C2 at the concrete completed Flask task. -/
theorem C2_amended_notfound_after_scheduled_cleanup_witness :
    (download_audio (run_pending_removal
        (download_audio flaskCompleted "t1").2) "t1").1 =
      DownloadResult.taskNotFound :=
  C2_amended_notfound_after_scheduled_cleanup flaskCompleted "t1"
    "audio_output/t1.mp3" rfl (by decide)

/-- C5 counterexample: the Whisper worker `transcribe_video` enforces no
wall-clock timeout at all, so a transform that ran 400 seconds (beyond the
300-second default of the spec) still ends COMPLETED instead of FAILED with
a timeout error. -/
theorem C5_counterexample_whisper_has_no_timeout :
    (400 : Int) > 300 ∧
    statusOf (transcribe_video pendingTask1 1 400
        (PipelineOutcome.success "hello" "en" 3) 500) 1 =
      some TranscriptionStatus.completed := by decide

/-- C5 amended: in the Flask extraction service, a run exceeding the
hard-coded 300-second subprocess timeout ends the task failed with the
dedicated timeout message (produced only by the `TimeoutExpired` branch and
distinct from every generic ffmpeg or extraction error message), and no
artifact is registered (no `audio_path` is recorded and no audio file
appears); the Whisper service has no such timeout. -/
theorem C5_amended_flask_timeout_failed_no_artifact (st : AppState)
    (task_id video audio : String) (info : FTask) (seconds rc : Int)
    (stderr : String)
    (hl : lookupA st.processing_status task_id = some info)
    (haudio : info.audio_path = none)
    (htime : seconds > 300) :
    (lookupA (process_video_async st task_id video audio
        (FfmpegRun.finishes seconds rc stderr)).processing_status task_id).map
        (fun t => (t.status, t.error, t.audio_path)) =
      some (FStatus.failed,
            some "Processing timeout (5 minutes exceeded)", none) ∧
    (audio ∉ st.files →
      audio ∉ (process_video_async st task_id video audio
          (FfmpegRun.finishes seconds rc stderr)).files) ∧
    (∀ s2, "Processing timeout (5 minutes exceeded)" ≠ "FFmpeg error: " ++ s2) ∧
    (∀ s2, "Processing timeout (5 minutes exceeded)" ≠
      "Audio extracted successfully" ∧
      "Processing timeout (5 minutes exceeded)" ≠
        "Error during extraction: " ++ s2) := by
  have hextract : extract_audio_ffmpeg (FfmpegRun.finishes seconds rc stderr) =
      (false, "Processing timeout (5 minutes exceeded)") := by
    simp [extract_audio_ffmpeg, htime]
  refine ⟨?_, ?_, ?_, ?_⟩
  · simp [process_video_async, hextract, updateFTask, hl,
      lookupA_insertA_self, haudio]
  · intro hnot hmem
    simp only [process_video_async, hextract, updateFTask, hl,
      lookupA_insertA_self] at hmem
    simp only [List.mem_filter] at hmem
    exact hnot hmem.1
  · exact fun s2 => string_ne_append_of_take _ _ 14 (by decide) (by decide) s2
  · intro s2
    exact ⟨by decide, string_ne_append_of_take _ _ 25 (by decide) (by decide) s2⟩

/-- Witness for the amended C5 at the concrete queued Flask task and a
301-second run. -/
theorem C5_amended_flask_timeout_failed_no_artifact_witness :
    ((lookupA (process_video_async flaskQueued "t1" "uploads/t1.mp4"
        "audio_output/t1.mp3"
        (FfmpegRun.finishes 301 0 "")).processing_status "t1").map
        (fun t => (t.status, t.error, t.audio_path)) =
      some (FStatus.failed,
            some "Processing timeout (5 minutes exceeded)", none) ∧
    ("audio_output/t1.mp3" ∉ flaskQueued.files →
      "audio_output/t1.mp3" ∉ (process_video_async flaskQueued "t1"
          "uploads/t1.mp4" "audio_output/t1.mp3"
          (FfmpegRun.finishes 301 0 "")).files) ∧
    (∀ s2, "Processing timeout (5 minutes exceeded)" ≠ "FFmpeg error: " ++ s2) ∧
    (∀ s2, "Processing timeout (5 minutes exceeded)" ≠
      "Audio extracted successfully" ∧
      "Processing timeout (5 minutes exceeded)" ≠
        "Error during extraction: " ++ s2)) :=
  C5_amended_flask_timeout_failed_no_artifact flaskQueued "t1"
    "uploads/t1.mp4" "audio_output/t1.mp3"
    { status := FStatus.queued, created_at := 0, original_filename := "v.mp4" }
    301 0 "" (by decide) rfl (by decide)

theorem delete_file_preserves (st : FileManagerState) (fid : String)
    (hB : liveRecordsBacked st) (hU : pathsNodup st) :
    liveRecordsBacked (delete_file st fid).2 ∧
      pathsNodup (delete_file st fid).2 := by
  cases hl : lookupA st.file_map fid with
  | none =>
      simp only [delete_file, hl]
      exact ⟨hB, hU⟩
  | some info =>
      have hmem_info : (fid, info) ∈ st.file_map := lookupA_mem hl
      have hpath : info.path ∈ st.files := hB _ hmem_info
      constructor
      · intro p hp
        simp only [delete_file, hl] at hp ⊢
        have hp2 := mem_eraseA hp
        have hpst : p.2.path ∈ st.files := hB _ hp2.1
        have hne_pair : p ≠ (fid, info) := by
          intro he
          exact hp2.2 (by rw [he])
        have hnepath : p.2.path ≠ info.path := by
          intro he
          exact hne_pair
            (List.inj_on_of_nodup_map hU hp2.1 hmem_info (by simpa using he))
        simp [safe_delete_file, hpath, List.mem_filter, hpst, hnepath]
      · simp only [delete_file, hl]
        exact List.Nodup.sublist ((eraseA_sublist _ _).map _) hU

theorem get_file_path_preserves (st : FileManagerState) (fid : String)
    (hB : liveRecordsBacked st) (hU : pathsNodup st) :
    liveRecordsBacked (get_file_path st fid).2 ∧
      pathsNodup (get_file_path st fid).2 := by
  cases hl : lookupA st.file_map fid with
  | none =>
      simp only [get_file_path, hl]
      exact ⟨hB, hU⟩
  | some info =>
      by_cases hp : info.path ∈ st.files
      · simp only [get_file_path, hl, if_pos hp]
        exact ⟨hB, hU⟩
      · simp only [get_file_path, hl, if_neg hp]
        constructor
        · intro p hp2
          exact hB _ (mem_eraseA hp2).1
        · exact List.Nodup.sublist ((eraseA_sublist _ _).map _) hU

theorem foldDeleteFile_preserves (L : List String) :
    ∀ st : FileManagerState, liveRecordsBacked st → pathsNodup st →
      liveRecordsBacked (L.foldl (fun s fid => (delete_file s fid).2) st) ∧
        pathsNodup (L.foldl (fun s fid => (delete_file s fid).2) st) := by
  induction L with
  | nil => intro st hB hU; exact ⟨hB, hU⟩
  | cons hd tl ih =>
      intro st hB hU
      have h1 := delete_file_preserves st hd hB hU
      exact ih _ h1.1 h1.2

theorem register_file_preserves (st : FileManagerState) (fid path : String)
    (now : Int) (ftype : String)
    (hB : liveRecordsBacked st) (hU : pathsNodup st)
    (hfresh_id : lookupA st.file_map fid = none)
    (hexists : path ∈ st.files)
    (hfresh_path : ∀ p ∈ st.file_map, p.2.path ≠ path) :
    liveRecordsBacked (register_file st fid path now ftype) ∧
      pathsNodup (register_file st fid path now ftype) := by
  have hins := insertA_of_lookupA_none
    (κ := String) (α := FileEntry)
    { path := path, timestamp := now, ftype := ftype } hfresh_id
  constructor
  · intro p hp
    simp only [register_file, hins, List.mem_append, List.mem_singleton] at hp
    rcases hp with hp | hp
    · exact hB _ hp
    · simp [register_file, hp, hexists]
  · unfold pathsNodup
    simp only [register_file, hins, List.map_append, List.map_cons,
      List.map_nil]
    refine List.Nodup.append hU (List.nodup_singleton _) ?_
    intro a ha hb
    simp only [List.mem_map] at ha
    obtain ⟨p, hp, hpa⟩ := ha
    simp only [List.mem_singleton] at hb
    exact hfresh_path p hp (by rw [hpa, hb])

/-- C6: under the store invariants (every live record points at an existing
file, no two records share a path), `delete_file` removes the record and the
backing file together and afterwards the id resolves to nothing, while
`get_file_path`, the expiry sweep `cleanup_expired_files` and a contractual
`register_file` (fresh id, existing file, unshared path) all preserve the
invariant that no live record points at a missing file. -/
theorem C6_record_and_file_deleted_together (st : FileManagerState)
    (hB : liveRecordsBacked st) (hU : pathsNodup st) :
    (∀ fid info, lookupA st.file_map fid = some info →
        lookupA (delete_file st fid).2.file_map fid = none ∧
        info.path ∉ (delete_file st fid).2.files ∧
        (get_file_path (delete_file st fid).2 fid).1 = none ∧
        liveRecordsBacked (delete_file st fid).2 ∧
        pathsNodup (delete_file st fid).2) ∧
    (∀ fid, liveRecordsBacked (get_file_path st fid).2 ∧
        pathsNodup (get_file_path st fid).2) ∧
    (∀ now age, liveRecordsBacked (cleanup_expired_files st now age) ∧
        pathsNodup (cleanup_expired_files st now age)) ∧
    (∀ fid path now ftype, lookupA st.file_map fid = none →
        path ∈ st.files → (∀ p ∈ st.file_map, p.2.path ≠ path) →
        liveRecordsBacked (register_file st fid path now ftype) ∧
        pathsNodup (register_file st fid path now ftype)) := by
  refine ⟨?_, fun fid => get_file_path_preserves st fid hB hU,
    fun now age => foldDeleteFile_preserves _ st hB hU,
    fun fid path now ftype h1 h2 h3 =>
      register_file_preserves st fid path now ftype hB hU h1 h2 h3⟩
  intro fid info hl
  have hpath : info.path ∈ st.files := hB _ (lookupA_mem hl)
  have hgone : lookupA (delete_file st fid).2.file_map fid = none := by
    simp [delete_file, hl]
  refine ⟨hgone, ?_, ?_, delete_file_preserves st fid hB hU⟩
  · simp only [delete_file, hl]
    simp [safe_delete_file, hpath, List.mem_filter]
  · simp [get_file_path, hgone]

/-- Witness for C6 at a concrete one-artifact store. -/
theorem C6_record_and_file_deleted_together_witness :
    (∀ fid info, lookupA fmOneArtifact.file_map fid = some info →
        lookupA (delete_file fmOneArtifact fid).2.file_map fid = none ∧
        info.path ∉ (delete_file fmOneArtifact fid).2.files ∧
        (get_file_path (delete_file fmOneArtifact fid).2 fid).1 = none ∧
        liveRecordsBacked (delete_file fmOneArtifact fid).2 ∧
        pathsNodup (delete_file fmOneArtifact fid).2) ∧
    (∀ fid, liveRecordsBacked (get_file_path fmOneArtifact fid).2 ∧
        pathsNodup (get_file_path fmOneArtifact fid).2) ∧
    (∀ now age,
        liveRecordsBacked (cleanup_expired_files fmOneArtifact now age) ∧
        pathsNodup (cleanup_expired_files fmOneArtifact now age)) ∧
    (∀ fid path now ftype, lookupA fmOneArtifact.file_map fid = none →
        path ∈ fmOneArtifact.files →
        (∀ p ∈ fmOneArtifact.file_map, p.2.path ≠ path) →
        liveRecordsBacked (register_file fmOneArtifact fid path now ftype) ∧
        pathsNodup (register_file fmOneArtifact fid path now ftype)) :=
  C6_record_and_file_deleted_together fmOneArtifact
    (by unfold liveRecordsBacked; decide) (by unfold pathsNodup; decide)

theorem indexOf_lt_of_filter_pair {α : Type} [DecidableEq α] (q : α → Bool) :
    ∀ (l : List α) (a b : α), a ≠ b → l.filter q = [a, b] →
      l.indexOf a < l.indexOf b := by
  intro l
  induction l with
  | nil => intro a b hne h; simp at h
  | cons x xs ih =>
      intro a b hne h
      by_cases hq : q x = true
      · rw [List.filter_cons_of_pos hq] at h
        have hx : x = a ∧ xs.filter q = [b] := by
          constructor
          · exact (List.cons.injEq _ _ _ _ ▸ h : _ ∧ _).1
          · exact (List.cons.injEq _ _ _ _ ▸ h : _ ∧ _).2
        obtain ⟨rfl, hrest⟩ := hx
        rw [List.indexOf_cons_self, List.indexOf_cons_ne _ hne]
        exact Nat.succ_pos _
      · rw [List.filter_cons_of_neg (by simpa using hq)] at h
        have ha_mem : a ∈ xs.filter q := by rw [h]; simp
        have hb_mem : b ∈ xs.filter q := by rw [h]; simp
        have hqa : q a = true := (List.mem_filter.mp ha_mem).2
        have hqb : q b = true := (List.mem_filter.mp hb_mem).2
        have hxa : x ≠ a := fun he => hq (he ▸ hqa)
        have hxb : x ≠ b := fun he => hq (he ▸ hqb)
        have hih := ih a b hne h
        rw [List.indexOf_cons_ne _ hxa, List.indexOf_cons_ne _ hxb]
        omega

/-- C9 counterexample: both services dispatch each submitted task as an
independent detached unit of work with no concurrency ceiling, so the trace
in which task 1 enters PROCESSING before task 0 reaches a terminal state is
a possible behaviour, violating the claimed FIFO discipline. -/
theorem C9_counterexample_out_of_order_dispatch :
    validTrace 2 outOfOrderTrace ∧ ¬ fifoOrdered 2 outOfOrderTrace := by
  unfold validTrace fifoOrdered
  decide

/-- C9 amended: with the detached fire-and-forget dispatch of the sources,
no cross-task ordering is guaranteed; only the per-task order holds — in
every possible trace each task enters PROCESSING before it reaches its
terminal state. -/
theorem C9_amended_per_task_order (N : Nat) (tr : List TaskEvent)
    (hvalid : validTrace N tr) :
    ∀ k < N, tr.indexOf (TaskEvent.setProcessing k) <
      tr.indexOf (TaskEvent.setTerminal k) := by
  intro k hk
  have h := hvalid.2 k hk
  exact indexOf_lt_of_filter_pair (fun e => evTask e == k) tr _ _ (by simp) h

/-- Witness for the amended C9 at the one-task trace and task 0. -/
theorem C9_amended_per_task_order_witness :
    [TaskEvent.setProcessing 0, TaskEvent.setTerminal 0].indexOf
        (TaskEvent.setProcessing 0) <
      [TaskEvent.setProcessing 0, TaskEvent.setTerminal 0].indexOf
        (TaskEvent.setTerminal 0) :=
  C9_amended_per_task_order 1
    [TaskEvent.setProcessing 0, TaskEvent.setTerminal 0]
    (by unfold validTrace; decide) 0 (by decide)

end Transcriber
